import Mathlib

/-!
Verification of the multi-method ranking and evaluation engine of the
Legal Document Search System.

The development shallowly embeds the Python source:
* `src/similarity_methods.py` — the four ranking methods (cosine,
  Euclidean-derived, MMR, hybrid), the entity matcher, and the
  precision/recall metrics;
* `src/search_engine.py` — the engine-level `search` guard and the
  method-comparison summary.

Modelling conventions:
* Python floats are modelled as real numbers (`ℝ`); quantities that the
  source computes by purely rational arithmetic (entity scores, metrics)
  are modelled in `ℚ` so they stay decidable.
* Python strings are modelled as `List Char` where the source computes on
  their characters (lower-casing, substring tests, whitespace splitting),
  and as `String` where they are only stored and compared.
* `np.argsort` is modelled as a stable ascending argsort (for the small
  arrays of this system numpy's introsort degenerates to a stable
  insertion sort, and `np.argsort` on such inputs orders ties by index);
  the source then reverses it and slices, which is modelled by
  `List.reverse` and `List.take`.
* `np.argmax` on an empty array raises `ValueError`; this is the only
  numpy failure the embedded algorithms themselves can hit, so
  `mmr_search` returns `Except String _`.  (sklearn's input validation on
  zero-sample matrices is not modelled; the claims about the non-MMR
  methods all concern non-empty corpora.)
* `top_k` is modelled as `ℕ`; Python's `arr[:k]` for `k ≥ 0` is `take k`,
  and `min(top_k - 1, ...)` matches truncated `ℕ` subtraction for
  `top_k ≥ 0`.
-/

namespace LegalSearch

/-- A document record: `id`, `title`, `category`, `content` and the declared
`entities` list, mirroring the document dictionaries of the source. -/
structure Document where
  id : String
  title : String
  category : String
  content : String
  entities : List (List Char)
deriving DecidableEq, Repr

/-- Default document, used only to totalise list indexing (`List.getD`);
all theorems index inside bounds. -/
def dDoc : Document := ⟨"", "", "", "", []⟩

/-- A ranked search result: a copy of the document plus the method's
`similarity_score` and `method` tag; only the hybrid method also sets
`cosScore` (`cosine_score`) and `entScore` (`entity_score`). -/
structure RankedResult where
  doc : Document
  simScore : ℝ
  method : String
  cosScore : Option ℝ
  entScore : Option ℝ

/-! ### Entity matching (`SimilarityMethods._calculate_entity_match_scores`) -/

/-- Python `str.lower()`, characterwise. -/
def pyLower (s : List Char) : List Char := s.map Char.toLower

/-- Does the second list occur at the head of the first one. -/
def leadsWith : List Char → List Char → Bool
  | _, [] => true
  | [], _ :: _ => false
  | a :: hs, b :: ns => a == b && leadsWith hs ns

/-- Python `needle in hay` for strings: substring occurrence anywhere. -/
def hasSub : List Char → List Char → Bool
  | [], needle => leadsWith [] needle
  | a :: t, needle => leadsWith (a :: t) needle || hasSub t needle

/-- Python `str.split()` with no argument: split on whitespace runs,
dropping empty chunks. -/
def splitWs (s : List Char) : List (List Char) :=
  (List.splitOnP (fun c => c.isWhitespace) s).filter (fun w => ¬ w.isEmpty)

/-- Python `len(set(ew) & set(qw))`: the number of distinct words of `ew`
that also occur in `qw`. -/
def wordOverlap (ew qw : List (List Char)) : ℕ :=
  (ew.dedup.filter (fun w => qw.contains w)).length

/-- One entity's word-overlap contribution (the second loop of
`_calculate_entity_match_scores`): the fraction of the entity's
whitespace-split words that occur among the query's words, added only
when the overlap is positive (which also guards Python's division by
`len(entity_words)`). -/
def entityTerm (qwords : List (List Char)) (e : List Char) : ℚ :=
  if 0 < wordOverlap (splitWs (pyLower e)) qwords then
    (wordOverlap (splitWs (pyLower e)) qwords : ℚ) / ((splitWs (pyLower e)).length : ℚ)
  else 0

/-- The un-normalised entity score of one document: one point for each
entity occurring verbatim (case-folded) in the query, plus the
word-overlap contribution of each entity. -/
def entityRawScore (query : List Char) (entities : List (List Char)) : ℚ :=
  ((entities.filter (fun e => hasSub (pyLower query) (pyLower e))).length : ℚ)
    + (entities.map (entityTerm (splitWs (pyLower query)))).sum

/-- The entity-match score of one document
(`_calculate_entity_match_scores`, body of the per-document loop):
the raw score divided by the number of entities when that number is
nonzero (`if entities: score = score / len(entities)`). -/
def entityMatchScore (query : List Char) (entities : List (List Char)) : ℚ :=
  if entities.isEmpty then entityRawScore query entities
  else entityRawScore query entities / (entities.length : ℚ)

/-- `_calculate_entity_match_scores`: the vector of entity-match scores,
one per document. -/
def calculate_entity_match_scores (query : List Char) (docs : List Document) : List ℚ :=
  docs.map (fun d => entityMatchScore query d.entities)

/-! ### Evaluation metrics (`calculate_precision_at_k`, `calculate_recall_at_k`) -/

/-- `SimilarityMethods.calculate_precision_at_k`.  The source divides by
`min(k, len(top_k_results))`; when the result list is non-empty and `k = 0`
that denominator is `0` and Python raises `ZeroDivisionError`, modelled by
the `Except.error` branch. -/
def calculate_precision_at_k (results : List RankedResult)
    (relevant : List String) (k : ℕ) : Except String ℚ :=
  if results.isEmpty then .ok 0
  else
    let topk := results.take k
    let relCount := (topk.filter (fun r => relevant.contains r.doc.category)).length
    if min k topk.length = 0 then .error "ZeroDivisionError"
    else .ok ((relCount : ℚ) / ((min k topk.length : ℕ) : ℚ))

/-- `SimilarityMethods.calculate_recall_at_k`. -/
def calculate_recall_at_k (results : List RankedResult) (allDocs : List Document)
    (relevant : List String) (k : ℕ) : ℚ :=
  if results.isEmpty then 0
  else
    let totalRel := (allDocs.filter (fun d => relevant.contains d.category)).length
    if totalRel = 0 then 0
    else
      let relRetrieved :=
        ((results.take k).filter (fun r => relevant.contains r.doc.category)).length
      (relRetrieved : ℚ) / (totalRel : ℚ)

/-! ### Vector primitives (numpy / sklearn, in exact real arithmetic) -/

/-- Dot product of two vectors. -/
def dotL (v w : List ℝ) : ℝ := (List.zipWith (· * ·) v w).sum

/-- Euclidean norm. -/
noncomputable def norm2 (v : List ℝ) : ℝ := Real.sqrt (dotL v v)

/-- sklearn `cosine_similarity` of two vectors.  sklearn normalises each
row, mapping zero-norm rows to zero, so the similarity is `0` whenever
either norm is zero. -/
noncomputable def cosineSim (q d : List ℝ) : ℝ :=
  if norm2 q * norm2 d = 0 then 0 else dotL q d / (norm2 q * norm2 d)

/-- sklearn `euclidean_distances` of two vectors. -/
noncomputable def euclidDist (q d : List ℝ) : ℝ :=
  Real.sqrt (((List.zipWith (· - ·) q d).map (fun x => x * x)).sum)

/-- Row `cosine_similarity(query_embedding.reshape(1, -1), doc_embeddings)[0]`. -/
noncomputable def cosineSimList (qe : List ℝ) (embeds : List (List ℝ)) : List ℝ :=
  embeds.map (cosineSim qe)

/-- The Euclidean-derived similarities `1 / (1 + distances)`. -/
noncomputable def euclidSimList (qe : List ℝ) (embeds : List (List ℝ)) : List ℝ :=
  embeds.map (fun d => 1 / (1 + euclidDist qe d))

/-! ### Ranking pipeline: argsort, reverse, slice -/

/-- The stable-argsort sort key on indices into `xs`: ascending by value,
ties ascending by index. -/
def keyLe (xs : List ℝ) (i j : ℕ) : Prop :=
  xs.getD i 0 < xs.getD j 0 ∨ (xs.getD i 0 = xs.getD j 0 ∧ i ≤ j)

noncomputable instance (xs : List ℝ) : DecidableRel (keyLe xs) :=
  fun i j => inferInstanceAs (Decidable (_ ∨ _ ∧ _))

/-- `np.argsort(xs)`: the permutation of `range xs.length` listing indices
by ascending value, ties by ascending index. -/
noncomputable def argsortAsc (xs : List ℝ) : List ℕ :=
  List.insertionSort (keyLe xs) (List.range xs.length)

/-- `np.argsort(xs)[::-1][:k]` — the top-`k` indices by descending value. -/
noncomputable def rankIdx (xs : List ℝ) (k : ℕ) : List ℕ :=
  ((argsortAsc xs).reverse).take k

/-- The result-building loop shared by the cosine, Euclidean and MMR
methods: copy each selected document and attach the score and method tag. -/
noncomputable def buildResults (idxs : List ℕ) (docs : List Document)
    (sims : List ℝ) (method : String) : List RankedResult :=
  idxs.map fun i =>
    { doc := docs.getD i dDoc, simScore := sims.getD i 0,
      method := method, cosScore := none, entScore := none }

/-- `SimilarityMethods.cosine_similarity_search`. -/
noncomputable def cosine_similarity_search (qe : List ℝ) (embeds : List (List ℝ))
    (docs : List Document) (k : ℕ) : List RankedResult :=
  buildResults (rankIdx (cosineSimList qe embeds) k) docs
    (cosineSimList qe embeds) "Cosine Similarity"

/-- `SimilarityMethods.euclidean_distance_search`. -/
noncomputable def euclidean_distance_search (qe : List ℝ) (embeds : List (List ℝ))
    (docs : List Document) (k : ℕ) : List RankedResult :=
  buildResults (rankIdx (euclidSimList qe embeds) k) docs
    (euclidSimList qe embeds) "Euclidean Distance"

/-! ### Hybrid search -/

/-- The fused scores `0.6 * cosine_scores + 0.4 * entity_scores`. -/
noncomputable def hybridScores (query : List Char) (qe : List ℝ)
    (embeds : List (List ℝ)) (docs : List Document) : List ℝ :=
  List.zipWith (fun c e => 0.6 * c + 0.4 * e)
    (cosineSimList qe embeds)
    ((calculate_entity_match_scores query docs).map (fun q : ℚ => (q : ℝ)))

/-- `SimilarityMethods.hybrid_similarity_search`: rank by the fused score
and retain the decomposed components on each result. -/
noncomputable def hybrid_similarity_search (query : List Char) (qe : List ℝ)
    (embeds : List (List ℝ)) (docs : List Document) (k : ℕ) : List RankedResult :=
  (rankIdx (hybridScores query qe embeds docs) k).map fun i =>
    { doc := docs.getD i dDoc,
      simScore := (hybridScores query qe embeds docs).getD i 0,
      method := "Hybrid Similarity",
      cosScore := some ((cosineSimList qe embeds).getD i 0),
      entScore := some (((calculate_entity_match_scores query docs).map
        (fun q : ℚ => (q : ℝ))).getD i 0) }

/-! ### MMR search -/

/-- `np.max` of a list (the MMR redundancy term; the source guards the
empty case with `redundancy = 0`). -/
noncomputable def maxD : List ℝ → ℝ
  | [] => 0
  | x :: t => max x (maxD t)

/-- `np.argmax`: the first index attaining the maximum; `none` on the
empty array, where numpy raises
`ValueError: attempt to get argmax of an empty sequence`. -/
noncomputable def argmaxIdx : List ℝ → Option ℕ
  | [] => none
  | x :: t =>
    match argmaxIdx t with
    | none => some 0
    | some j => if t.getD j 0 ≤ x then some 0 else some (j + 1)

/-- One candidate's MMR score
`lambda * relevance - (1 - lambda) * max(cos(doc, selected))`. -/
noncomputable def mmrScoreOf (embeds : List (List ℝ)) (sims : List ℝ) (lam : ℝ)
    (sel : List ℕ) (i : ℕ) : ℝ :=
  lam * sims.getD i 0 -
    (1 - lam) * maxD (sel.map (fun s => cosineSim (embeds.getD i []) (embeds.getD s [])))

/-- The MMR selection loop: in each round, append the remaining index with
the highest MMR score (`np.argmax` ties go to the earliest remaining
index) and remove it from the remaining pool. -/
noncomputable def mmrLoop (embeds : List (List ℝ)) (sims : List ℝ) (lam : ℝ) :
    ℕ → List ℕ → List ℕ → List ℕ
  | 0, sel, _ => sel
  | fuel + 1, sel, rem =>
    match argmaxIdx (rem.map (mmrScoreOf embeds sims lam sel)) with
    | none => sel
    | some p =>
      mmrLoop embeds sims lam fuel (sel ++ [rem.getD p 0]) (rem.erase (rem.getD p 0))

/-- `SimilarityMethods.mmr_search`: seed with the highest-similarity
document (`np.argmax` raises on an empty corpus), then run
`min(top_k - 1, len(remaining))` MMR rounds; each selected document
reports its original relevance as `similarity_score`. -/
noncomputable def mmr_search (qe : List ℝ) (embeds : List (List ℝ))
    (docs : List Document) (k : ℕ) (lam : ℝ) : Except String (List RankedResult) :=
  let sims := cosineSimList qe embeds
  match argmaxIdx sims with
  | none => .error "attempt to get argmax of an empty sequence"
  | some first =>
    let rem0 := (List.range docs.length).erase first
    let fuel := min (k - 1) rem0.length
    .ok (buildResults (mmrLoop embeds sims lam fuel [first] rem0) docs sims "MMR")

/-! ### Engine level (`LegalSearchEngine.search`,
`LegalSearchEngine.get_method_comparison_summary`) -/

/-- `LegalSearchEngine.search`: if the document list is empty or the
embedding matrix is absent, return the empty mapping `{}` without calling
any ranking method; otherwise run all four methods (MMR with the default
`lambda_param = 0.7`). -/
noncomputable def engineSearch (query : List Char) (qe : List ℝ)
    (docs : List Document) (embeds? : Option (List (List ℝ))) (k : ℕ) :
    Except String (List (String × List RankedResult)) :=
  if docs.isEmpty || embeds?.isNone then .ok []
  else
    let embeds := embeds?.getD []
    match mmr_search qe embeds docs k (7 / 10) with
    | .error e => .error e
    | .ok mmrRes =>
      .ok [("cosine", cosine_similarity_search qe embeds docs k),
           ("euclidean", euclidean_distance_search qe embeds docs k),
           ("mmr", mmrRes),
           ("hybrid", hybrid_similarity_search query qe embeds docs k)]

/-- Per-method summary record produced by the comparison reporter. -/
structure MethodSummary where
  avgScore : ℝ
  categories : List String
  uniqueDocuments : ℕ
  totalResults : ℕ

/-- `LegalSearchEngine.get_method_comparison_summary`: the source iterates
over the mapping and, guarded by `if method_results:`, only emits an
entry for methods whose result list is non-empty. -/
noncomputable def get_method_comparison_summary
    (results : List (String × List RankedResult)) : List (String × MethodSummary) :=
  results.filterMap fun mr =>
    if mr.2.isEmpty then none
    else some (mr.1,
      { avgScore := (mr.2.map (fun r => r.simScore)).sum / (mr.2.length : ℝ),
        categories := (mr.2.map (fun r => r.doc.category)).dedup,
        uniqueDocuments := (mr.2.map (fun r => r.doc.id)).dedup.length,
        totalResults := mr.2.length })

/-! ### Proof-support definitions -/

/-- The value at index `i` of a score vector (out-of-range reads `0`;
all uses stay in range). -/
def val (sims : List ℝ) (i : ℕ) : ℝ := sims.getD i 0

/-- Non-strict descending-value order on indices. -/
def descLe (sims : List ℝ) (i j : ℕ) : Prop := val sims j ≤ val sims i

/-- Strict descending-value order on indices. -/
def descLt (sims : List ℝ) (i j : ℕ) : Prop := val sims j < val sims i

noncomputable instance (sims : List ℝ) : DecidableRel (descLe sims) :=
  fun _ _ => inferInstanceAs (Decidable (_ ≤ _))

instance (sims : List ℝ) : IsTotal ℕ (descLe sims) :=
  ⟨fun _ _ => (le_total _ _).symm⟩

instance (sims : List ℝ) : IsTrans ℕ (descLe sims) :=
  ⟨fun _ _ _ h1 h2 => le_trans h2 h1⟩

instance (sims : List ℝ) : IsTrans ℕ (descLt sims) :=
  ⟨fun _ _ _ h1 h2 => lt_trans h2 h1⟩

instance (sims : List ℝ) : IsAntisymm ℕ (descLt sims) :=
  ⟨fun _ _ h1 h2 => absurd (lt_trans h1 h2) (lt_irrefl _)⟩

instance (xs : List ℝ) : IsTotal ℕ (keyLe xs) := by
  constructor
  intro i j
  rcases lt_trichotomy (xs.getD i 0) (xs.getD j 0) with h | h | h
  · exact Or.inl (Or.inl h)
  · rcases le_total i j with hij | hij
    · exact Or.inl (Or.inr ⟨h, hij⟩)
    · exact Or.inr (Or.inr ⟨h.symm, hij⟩)
  · exact Or.inr (Or.inl h)

instance (xs : List ℝ) : IsTrans ℕ (keyLe xs) := by
  constructor
  intro a b c hab hbc
  rcases hab with h1 | ⟨e1, l1⟩
  · rcases hbc with h2 | ⟨e2, _⟩
    · exact Or.inl (h1.trans h2)
    · exact Or.inl (e2 ▸ h1)
  · rcases hbc with h2 | ⟨e2, l2⟩
    · exact Or.inl (e1 ▸ h2)
    · exact Or.inr ⟨e1.trans e2, l1.trans l2⟩

instance (xs : List ℝ) : IsAntisymm ℕ (keyLe xs) := by
  constructor
  intro a b hab hba
  rcases hab with h1 | ⟨e1, l1⟩
  · rcases hba with h2 | ⟨e2, _⟩
    · exact absurd (h1.trans h2) (lt_irrefl _)
    · exact absurd (e2 ▸ h1) (lt_irrefl _)
  · rcases hba with h2 | ⟨_, l2⟩
    · exact absurd (e1 ▸ h2) (lt_irrefl _)
    · exact le_antisymm l1 l2

/-- Descending sort of an index list by value (selection order of
repeated argmax extraction; used to relate MMR at `lambda = 1` to the
cosine ranking). -/
noncomputable def sortDesc (sims : List ℝ) (l : List ℕ) : List ℕ :=
  List.insertionSort (descLe sims) l

/-- Pairwise-distinct score values (no ties). -/
def distinctSims (sims : List ℝ) : Prop := sims.Pairwise (fun a b => a ≠ b)

/-! ### Concrete sample data for witnesses and counterexamples -/

/-- Sample document A. -/
def dA : Document := ⟨"A", "Doc A", "CatA", "", []⟩

/-- Sample document B. -/
def dB : Document := ⟨"B", "Doc B", "CatB", "", []⟩

/-- Sample documents indexed 0..2. -/
def d0 : Document := ⟨"D0", "Doc 0", "Cat0", "", []⟩

/-- Sample document 1. -/
def d1 : Document := ⟨"D1", "Doc 1", "Cat1", "", []⟩

/-- Sample document 2. -/
def d2 : Document := ⟨"D2", "Doc 2", "Cat2", "", []⟩

/-- A sample ranked result over `dA`. -/
noncomputable def rA : RankedResult := ⟨dA, 0, "Cosine Similarity", none, none⟩

/-- The hybrid result produced for `dA` on the one-document corpus used in
the C5 witness. -/
noncomputable def rHyb : RankedResult :=
  ⟨dA, 3 / 5, "Hybrid Similarity", some 1, some 0⟩

/-! ## Theorems -/

/-! ### C2: entity-match score bounds -/

theorem wordOverlap_le (ew qw : List (List Char)) : wordOverlap ew qw ≤ ew.length :=
  le_trans (List.length_filter_le _ _) (List.Sublist.length_le (List.dedup_sublist ew))

theorem entityTerm_nonneg (qw : List (List Char)) (e : List Char) :
    0 ≤ entityTerm qw e := by
  unfold entityTerm
  by_cases h : 0 < wordOverlap (splitWs (pyLower e)) qw
  · rw [if_pos h]; positivity
  · rw [if_neg h]

theorem entityTerm_le_one (qw : List (List Char)) (e : List Char) :
    entityTerm qw e ≤ 1 := by
  unfold entityTerm
  by_cases h : 0 < wordOverlap (splitWs (pyLower e)) qw
  · rw [if_pos h]
    have hle : wordOverlap (splitWs (pyLower e)) qw ≤ (splitWs (pyLower e)).length :=
      wordOverlap_le _ _
    have hpos : 0 < ((splitWs (pyLower e)).length : ℚ) := by
      exact_mod_cast lt_of_lt_of_le h hle
    rw [div_le_one hpos]
    exact_mod_cast hle
  · rw [if_neg h]; exact zero_le_one

theorem entityRawScore_nonneg (q : List Char) (es : List (List Char)) :
    0 ≤ entityRawScore q es := by
  unfold entityRawScore
  refine add_nonneg (Nat.cast_nonneg _) (List.sum_nonneg ?_)
  intro x hx
  rcases List.mem_map.mp hx with ⟨e, _, rfl⟩
  exact entityTerm_nonneg _ _

theorem entityRawScore_le (q : List Char) (es : List (List Char)) :
    entityRawScore q es ≤ 2 * es.length := by
  unfold entityRawScore
  have h1 : (((es.filter (fun e => hasSub (pyLower q) (pyLower e))).length : ℚ)) ≤
      (es.length : ℚ) := by
    exact_mod_cast List.length_filter_le _ _
  have h2 : (es.map (entityTerm (splitWs (pyLower q)))).sum ≤ (es.length : ℚ) := by
    have := List.sum_le_card_nsmul (es.map (entityTerm (splitWs (pyLower q)))) 1
      (fun x hx => by
        rcases List.mem_map.mp hx with ⟨e, _, rfl⟩
        exact entityTerm_le_one _ _)
    simpa [nsmul_eq_mul] using this
  linarith

/-- C2 (amended): for every query and entity list the entity-match score
lies in `[0, 2]` (each entity can contribute a substring point plus a
word-overlap fraction of at most one before normalisation), and the score
of an empty entity list is exactly `0`. -/
theorem claim_C2 (query : List Char) (entities : List (List Char)) :
    (0 ≤ entityMatchScore query entities ∧ entityMatchScore query entities ≤ 2) ∧
      entityMatchScore query [] = 0 := by
  refine ⟨⟨?_, ?_⟩, ?_⟩
  · unfold entityMatchScore
    by_cases h : entities.isEmpty
    · rw [if_pos h]; exact entityRawScore_nonneg _ _
    · rw [if_neg h]; exact div_nonneg (entityRawScore_nonneg _ _) (Nat.cast_nonneg _)
  · unfold entityMatchScore
    by_cases h : entities.isEmpty
    · rw [if_pos h]
      rcases List.isEmpty_iff.mp h with rfl
      simp [entityRawScore]
    · rw [if_neg h]
      have hne : entities ≠ [] := fun hc => h (by simp [hc])
      have hn : 0 < (entities.length : ℚ) := by
        exact_mod_cast List.length_pos.mpr hne
      rw [div_le_iff hn]
      have := entityRawScore_le query entities
      linarith
  · simp [entityMatchScore, entityRawScore]

/-- C2 counterexample: the query "income tax" against the single entity
"income tax" scores the substring point and the full word-overlap
fraction, giving `2`, which exceeds the claimed upper bound `1`. -/
theorem claim_C2_cex :
    entityMatchScore ("income tax".toList) ["income tax".toList] = 2 ∧
      ¬ entityMatchScore ("income tax".toList) ["income tax".toList] ≤ 1 := by
  have h2 : wordOverlap (splitWs (pyLower ("income tax".toList)))
      (splitWs (pyLower ("income tax".toList))) = 2 := by decide
  have h3 : (splitWs (pyLower ("income tax".toList))).length = 2 := by decide
  have hterm : entityTerm (splitWs (pyLower ("income tax".toList))) ("income tax".toList) = 1 := by
    unfold entityTerm
    rw [h2, h3]
    norm_num
  have hraw : entityRawScore ("income tax".toList) ["income tax".toList] = 2 := by
    unfold entityRawScore
    rw [show (["income tax".toList].filter
        (fun e => hasSub (pyLower ("income tax".toList)) (pyLower e))).length = 1 from by decide]
    simp only [List.map_cons, List.map_nil, List.sum_cons, List.sum_nil, hterm]
    norm_num
  have hm : entityMatchScore ("income tax".toList) ["income tax".toList] = 2 := by
    unfold entityMatchScore
    rw [if_neg (by decide : ¬ (["income tax".toList] : List (List Char)).isEmpty = true), hraw]
    norm_num
  exact ⟨hm, by rw [hm]; norm_num⟩

/-! ### C7: precision and recall bounds -/

/-- C7 (amended): for `k ≥ 1` precision@k is returned (no error) and lies
in `[0, 1]`; recall@k lies in `[0, 1]` whenever the ranked list's
relevant-result count within the top `k` does not exceed the corpus's
relevant-document count (as holds for lists drawn from the corpus without
repetition); and recall@k is `0` whenever no corpus document has a
relevant category.  (At `k = 0` the precision denominator is `0` and the
source raises `ZeroDivisionError`; an arbitrary ranked list can repeat a
relevant document and push recall above `1`.) -/
theorem claim_C7 (results : List RankedResult) (allDocs : List Document)
    (relevant : List String) (k : ℕ) (hk : 1 ≤ k) :
    (∃ p, calculate_precision_at_k results relevant k = Except.ok p ∧ 0 ≤ p ∧ p ≤ 1) ∧
      (((results.take k).filter (fun r => relevant.contains r.doc.category)).length ≤
          (allDocs.filter (fun d => relevant.contains d.category)).length →
        0 ≤ calculate_recall_at_k results allDocs relevant k ∧
          calculate_recall_at_k results allDocs relevant k ≤ 1) ∧
      ((allDocs.filter (fun d => relevant.contains d.category)).length = 0 →
        calculate_recall_at_k results allDocs relevant k = 0) := by
  refine ⟨?_, ?_, ?_⟩
  · cases results with
    | nil => exact ⟨0, by simp [calculate_precision_at_k], le_refl 0, zero_le_one⟩
    | cons r rs =>
      have hlen : ((r :: rs).take k).length = min k (r :: rs).length :=
        List.length_take _ _
      have hpos : 0 < min k ((r :: rs).take k).length := by
        rw [hlen, ← min_assoc, min_self]
        exact lt_min hk (Nat.succ_pos _)
      have hne : min k ((r :: rs).take k).length ≠ 0 := Nat.pos_iff_ne_zero.mp hpos
      simp only [calculate_precision_at_k, List.isEmpty_cons, Bool.false_eq_true,
        if_false]
      rw [if_neg hne]
      refine ⟨_, rfl, by positivity, ?_⟩
      have hmeq : min k ((r :: rs).take k).length = ((r :: rs).take k).length := by
        refine min_eq_right ?_
        rw [hlen]
        exact min_le_left _ _
      rw [hmeq]
      have hposq : 0 < ((((r :: rs).take k).length : ℕ) : ℚ) := by
        exact_mod_cast hmeq ▸ hpos
      rw [div_le_one hposq]
      exact_mod_cast List.length_filter_le _ _
  · intro hcnt
    cases results with
    | nil => simp [calculate_recall_at_k]
    | cons r rs =>
      simp only [calculate_recall_at_k, List.isEmpty_cons, Bool.false_eq_true, if_false]
      by_cases htot : (allDocs.filter (fun d => relevant.contains d.category)).length = 0
      · rw [if_pos htot]
        exact ⟨le_refl 0, zero_le_one⟩
      · rw [if_neg htot]
        have hposq : 0 < ((allDocs.filter (fun d => relevant.contains d.category)).length : ℚ) := by
          exact_mod_cast Nat.pos_of_ne_zero htot
        refine ⟨by positivity, ?_⟩
        rw [div_le_one hposq]
        exact_mod_cast hcnt
  · intro h0
    cases results with
    | nil => simp [calculate_recall_at_k]
    | cons r rs =>
      simp only [calculate_recall_at_k, List.isEmpty_cons, Bool.false_eq_true, if_false]
      rw [if_pos h0]

/-- C7 witness: the amended statement applied at `k = 1` on empty inputs. -/
theorem claim_C7_witness :
    1 ≤ 1 ∧
      ((∃ p, calculate_precision_at_k [] [] 1 = Except.ok p ∧ 0 ≤ p ∧ p ≤ 1) ∧
        (((([] : List RankedResult).take 1).filter
            (fun r => List.contains [] r.doc.category)).length ≤
            (([] : List Document).filter (fun d => List.contains [] d.category)).length →
          0 ≤ calculate_recall_at_k [] [] [] 1 ∧ calculate_recall_at_k [] [] [] 1 ≤ 1) ∧
        ((([] : List Document).filter (fun d => List.contains [] d.category)).length = 0 →
          calculate_recall_at_k [] [] [] 1 = 0)) :=
  ⟨le_refl 1, claim_C7 [] [] [] 1 (le_refl 1)⟩

/-- C7 counterexample: with a non-empty ranked list and `k = 0` the
precision denominator `min(k, len(top_k))` is `0` and the source raises
`ZeroDivisionError`; and a ranked list repeating the one relevant corpus
document makes recall `2 > 1`. -/
theorem claim_C7_cex :
    calculate_precision_at_k [rA] [] 0 = Except.error "ZeroDivisionError" ∧
      calculate_recall_at_k [rA, rA] [dA] ["CatA"] 5 = 2 := by
  constructor
  · rfl
  · simp only [calculate_recall_at_k, List.isEmpty_cons, Bool.false_eq_true, if_false]
    rw [if_neg (by decide :
      ¬ (([dA] : List Document).filter (fun d => List.contains ["CatA"] d.category)).length = 0)]
    rw [show (([rA, rA].take 5).filter
        (fun r => List.contains ["CatA"] r.doc.category)).length = 2 from by decide]
    rw [show (([dA] : List Document).filter
        (fun d => List.contains ["CatA"] d.category)).length = 1 from by decide]
    norm_num

/-! ### C9: comparison summary on empty result lists -/

/-- C9 (amended): a method whose result list is empty is omitted from the
comparison summary entirely (the `if method_results:` guard skips it);
exactly the methods with non-empty result lists appear, in order. -/
theorem claim_C9 (name : String) (rest L : List (String × List RankedResult)) :
    get_method_comparison_summary ((name, []) :: rest) =
        get_method_comparison_summary rest ∧
      (get_method_comparison_summary L).map Prod.fst =
        (L.filter (fun mr => !mr.2.isEmpty)).map Prod.fst := by
  constructor
  · simp [get_method_comparison_summary]
  · induction L with
    | nil => rfl
    | cons a t ih =>
      cases h : a.2.isEmpty with
      | true =>
        simp only [get_method_comparison_summary, List.filterMap_cons, List.filter_cons, h,
          if_pos, Bool.not_true] at ih ⊢
        simpa [get_method_comparison_summary] using ih
      | false =>
        simp only [get_method_comparison_summary, List.filterMap_cons, List.filter_cons, h,
          Bool.not_false, if_false, List.map_cons] at ih ⊢
        simpa [get_method_comparison_summary] using ih

/-- C9 counterexample: a mapping with one method whose result list is
empty yields an empty summary — the method does not appear with average
`0.0`; it does not appear at all. -/
theorem claim_C9_cex :
    get_method_comparison_summary [("cosine", [])] = [] := by
  simp [get_method_comparison_summary]

/-! ### Ranking-pipeline lemmas -/

theorem argsortAsc_perm (xs : List ℝ) :
    List.Perm (argsortAsc xs) (List.range xs.length) :=
  List.perm_insertionSort _ _

theorem argsortAsc_length (xs : List ℝ) : (argsortAsc xs).length = xs.length := by
  rw [(argsortAsc_perm xs).length_eq, List.length_range]

theorem argsortAsc_sorted (xs : List ℝ) : (argsortAsc xs).Sorted (keyLe xs) :=
  List.sorted_insertionSort _ _

theorem argsortAsc_nodup (xs : List ℝ) : (argsortAsc xs).Nodup :=
  ((argsortAsc_perm xs).nodup_iff).mpr (List.nodup_range _)

theorem argsortAsc_mem {xs : List ℝ} {i : ℕ} (h : i ∈ argsortAsc xs) : i < xs.length := by
  have := (argsortAsc_perm xs).mem_iff.mp h
  simpa [List.mem_range] using this

theorem rankIdx_length (xs : List ℝ) (k : ℕ) : (rankIdx xs k).length = min k xs.length := by
  unfold rankIdx
  rw [List.length_take, List.length_reverse, argsortAsc_length]

theorem rankIdx_nodup (xs : List ℝ) (k : ℕ) : (rankIdx xs k).Nodup :=
  ((List.nodup_reverse.mpr (argsortAsc_nodup xs)).sublist (List.take_sublist _ _))

theorem rankIdx_mem {xs : List ℝ} {k i : ℕ} (h : i ∈ rankIdx xs k) : i < xs.length :=
  argsortAsc_mem (List.mem_reverse.mp (List.take_subset _ _ h))

theorem rankIdx_pairwise (xs : List ℝ) (k : ℕ) :
    (rankIdx xs k).Pairwise (fun i j => keyLe xs j i) :=
  (List.pairwise_reverse.mpr (argsortAsc_sorted xs)).sublist (List.take_sublist _ _)

theorem keyLe_val_le {xs : List ℝ} {i j : ℕ} (h : keyLe xs i j) :
    xs.getD i 0 ≤ xs.getD j 0 := by
  rcases h with h | ⟨e, _⟩
  · exact le_of_lt h
  · exact le_of_eq e

theorem buildResults_length (idxs : List ℕ) (docs : List Document) (sims : List ℝ)
    (m : String) : (buildResults idxs docs sims m).length = idxs.length :=
  List.length_map _ _

theorem buildResults_map_simScore (idxs : List ℕ) (docs : List Document) (sims : List ℝ)
    (m : String) :
    (buildResults idxs docs sims m).map (fun r => r.simScore) =
      idxs.map (fun i => sims.getD i 0) := by
  unfold buildResults
  rw [List.map_map]
  rfl

theorem hybrid_map_simScore (query : List Char) (qe : List ℝ) (embeds : List (List ℝ))
    (docs : List Document) (k : ℕ) :
    (hybrid_similarity_search query qe embeds docs k).map (fun r => r.simScore) =
      (rankIdx (hybridScores query qe embeds docs) k).map
        (fun i => (hybridScores query qe embeds docs).getD i 0) := by
  unfold hybrid_similarity_search
  rw [List.map_map]
  rfl

theorem rankIdx_scores_sorted (xs : List ℝ) (k : ℕ) :
    ((rankIdx xs k).map (fun i => xs.getD i 0)).Pairwise (fun a b => b ≤ a) := by
  rw [List.pairwise_map]
  exact (rankIdx_pairwise xs k).imp (fun h => keyLe_val_le h)

theorem cosineSimList_length (qe : List ℝ) (embeds : List (List ℝ)) :
    (cosineSimList qe embeds).length = embeds.length :=
  List.length_map _ _

theorem euclidSimList_length (qe : List ℝ) (embeds : List (List ℝ)) :
    (euclidSimList qe embeds).length = embeds.length :=
  List.length_map _ _

theorem hybridScores_length (query : List Char) (qe : List ℝ) (embeds : List (List ℝ))
    (docs : List Document) :
    (hybridScores query qe embeds docs).length = min embeds.length docs.length := by
  unfold hybridScores calculate_entity_match_scores
  rw [List.length_zipWith, cosineSimList_length, List.length_map, List.length_map]

/-! ### argmax lemmas -/

theorem argmaxIdx_nil : argmaxIdx [] = none := rfl

theorem argmaxIdx_cons (x : ℝ) (t : List ℝ) :
    argmaxIdx (x :: t) =
      match argmaxIdx t with
      | none => some 0
      | some j => if t.getD j 0 ≤ x then some 0 else some (j + 1) := rfl

theorem argmaxIdx_eq_none_iff (xs : List ℝ) : argmaxIdx xs = none ↔ xs = [] := by
  cases xs with
  | nil => simp [argmaxIdx_nil]
  | cons x t =>
    rw [argmaxIdx_cons]
    cases hj : argmaxIdx t with
    | none => simp
    | some j =>
      by_cases h : t.getD j 0 ≤ x
      · rw [List.getD_eq_getElem?_getD] at h
        simp [h]
      · rw [List.getD_eq_getElem?_getD] at h
        simp [h]

theorem argmaxIdx_lt {xs : List ℝ} {p : ℕ} (h : argmaxIdx xs = some p) : p < xs.length := by
  induction xs generalizing p with
  | nil => exact absurd h (by simp [argmaxIdx_nil])
  | cons x t ih =>
    rw [argmaxIdx_cons] at h
    cases hj : argmaxIdx t with
    | none =>
      simp only [hj] at h
      cases h
      rw [List.length_cons]
      exact Nat.succ_pos _
    | some j =>
      simp only [hj] at h
      by_cases hle : t.getD j 0 ≤ x
      · rw [if_pos hle] at h
        cases h
        rw [List.length_cons]
        exact Nat.succ_pos _
      · rw [if_neg hle] at h
        cases h
        rw [List.length_cons]
        exact Nat.succ_lt_succ (ih hj)

theorem argmaxIdx_max {xs : List ℝ} {p : ℕ} (h : argmaxIdx xs = some p) :
    ∀ y ∈ xs, y ≤ xs.getD p 0 := by
  induction xs generalizing p with
  | nil => exact absurd h (by simp [argmaxIdx_nil])
  | cons x t ih =>
    rw [argmaxIdx_cons] at h
    cases hj : argmaxIdx t with
    | none =>
      simp only [hj] at h
      cases h
      have htn : t = [] := (argmaxIdx_eq_none_iff t).mp hj
      subst htn
      intro y hy
      have hyx : y = x := List.mem_singleton.mp hy
      subst hyx
      rw [List.getD_cons_zero]
    | some j =>
      simp only [hj] at h
      by_cases hle : t.getD j 0 ≤ x
      · rw [if_pos hle] at h
        cases h
        intro y hy
        rw [List.getD_cons_zero]
        rcases List.mem_cons.mp hy with rfl | hyt
        · exact le_refl y
        · exact le_trans (ih hj y hyt) hle
      · rw [if_neg hle] at h
        cases h
        intro y hy
        rw [List.getD_cons_succ]
        rcases List.mem_cons.mp hy with rfl | hyt
        · exact le_of_lt (lt_of_not_le hle)
        · exact ih hj y hyt

theorem argmaxIdx_isSome {xs : List ℝ} (h : xs ≠ []) : ∃ p, argmaxIdx xs = some p := by
  cases hx : argmaxIdx xs with
  | none => exact absurd ((argmaxIdx_eq_none_iff xs).mp hx) h
  | some p => exact ⟨p, rfl⟩

/-! ### MMR loop length -/

theorem mmrLoop_length (embeds : List (List ℝ)) (sims : List ℝ) (lam : ℝ) :
    ∀ fuel rem sel, fuel ≤ rem.length →
      (mmrLoop embeds sims lam fuel sel rem).length = sel.length + fuel := by
  intro fuel
  induction fuel with
  | zero => intro rem sel _; simp [mmrLoop]
  | succ n ih =>
    intro rem sel hle
    cases rem with
    | nil => simp at hle
    | cons r rs =>
      have hmap : (r :: rs).map (mmrScoreOf embeds sims lam sel) ≠ [] := by simp
      rcases argmaxIdx_isSome hmap with ⟨p, hp⟩
      have hplt : p < (r :: rs).length := by
        have h1 := argmaxIdx_lt hp
        rwa [List.length_map] at h1
      have hbest : (r :: rs).getD p 0 ∈ (r :: rs) := by
        rw [List.getD_eq_getElem _ _ hplt]
        exact List.getElem_mem _
      have hlen2 : n ≤ ((r :: rs).erase ((r :: rs).getD p 0)).length := by
        rw [List.length_erase_of_mem hbest]
        rw [List.length_cons] at hle ⊢
        omega
      simp only [mmrLoop, hp]
      rw [ih _ _ hlen2]
      rw [List.length_append, List.length_cons, List.length_nil]
      omega

/-! ### C1: result counts and score ordering -/

/-- C1 (amended): on a non-empty, index-aligned corpus with `topK ≥ 1`,
each of the four methods returns exactly `min(topK, corpusSize)` results;
the cosine, Euclidean and hybrid lists are sorted by `similarity_score`
non-increasing; MMR's list is in MMR selection order, and its reported
scores (the original relevance values) need not be non-increasing — see
the counterexample. -/
theorem claim_C1 (query : List Char) (qe : List ℝ) (embeds : List (List ℝ))
    (docs : List Document) (k : ℕ) (lam : ℝ)
    (hne : docs ≠ []) (halign : embeds.length = docs.length) (hk : 1 ≤ k) :
    ((cosine_similarity_search qe embeds docs k).length = min k docs.length ∧
      (euclidean_distance_search qe embeds docs k).length = min k docs.length ∧
      (hybrid_similarity_search query qe embeds docs k).length = min k docs.length ∧
      (mmr_search qe embeds docs k lam).map List.length = Except.ok (min k docs.length)) ∧
    (((cosine_similarity_search qe embeds docs k).map (fun r => r.simScore)).Pairwise
        (fun a b => b ≤ a) ∧
      ((euclidean_distance_search qe embeds docs k).map (fun r => r.simScore)).Pairwise
        (fun a b => b ≤ a) ∧
      ((hybrid_similarity_search query qe embeds docs k).map (fun r => r.simScore)).Pairwise
        (fun a b => b ≤ a)) := by
  have hnpos : 0 < docs.length := List.length_pos.mpr hne
  refine ⟨⟨?_, ?_, ?_, ?_⟩, ?_, ?_, ?_⟩
  · unfold cosine_similarity_search
    rw [buildResults_length, rankIdx_length, cosineSimList_length, halign]
  · unfold euclidean_distance_search
    rw [buildResults_length, rankIdx_length, euclidSimList_length, halign]
  · unfold hybrid_similarity_search
    rw [List.length_map, rankIdx_length, hybridScores_length, halign, min_self]
  · have hsims : cosineSimList qe embeds ≠ [] := by
      apply List.length_pos.mp
      rw [cosineSimList_length, halign]
      exact hnpos
    rcases argmaxIdx_isSome hsims with ⟨first, hfirst⟩
    have hfl : first < docs.length := by
      have h1 := argmaxIdx_lt hfirst
      rwa [cosineSimList_length, halign] at h1
    have hmemfirst : first ∈ List.range docs.length := List.mem_range.mpr hfl
    have hrem0len : ((List.range docs.length).erase first).length = docs.length - 1 := by
      rw [List.length_erase_of_mem hmemfirst, List.length_range]
    simp only [mmr_search, hfirst]
    rw [Except.map]
    rw [buildResults_length]
    rw [mmrLoop_length _ _ _ _ _ _ (min_le_right _ _)]
    rw [hrem0len, List.length_cons, List.length_nil]
    congr 1
    omega
  · unfold cosine_similarity_search
    rw [buildResults_map_simScore]
    exact rankIdx_scores_sorted _ _
  · unfold euclidean_distance_search
    rw [buildResults_map_simScore]
    exact rankIdx_scores_sorted _ _
  · rw [hybrid_map_simScore]
    exact rankIdx_scores_sorted _ _

/-- C1 witness: the amended statement applied to a one-document corpus
with `topK = 1`. -/
theorem claim_C1_witness :
    (([dA] : List Document) ≠ [] ∧ ([[(1 : ℝ)]] : List (List ℝ)).length =
        ([dA] : List Document).length ∧ 1 ≤ 1) ∧
      (((cosine_similarity_search [1] [[1]] [dA] 1).length =
          min 1 ([dA] : List Document).length ∧
        (euclidean_distance_search [1] [[1]] [dA] 1).length =
          min 1 ([dA] : List Document).length ∧
        (hybrid_similarity_search [] [1] [[1]] [dA] 1).length =
          min 1 ([dA] : List Document).length ∧
        (mmr_search [1] [[1]] [dA] 1 (7 / 10)).map List.length =
          Except.ok (min 1 ([dA] : List Document).length)) ∧
      (((cosine_similarity_search [1] [[1]] [dA] 1).map (fun r => r.simScore)).Pairwise
          (fun a b => b ≤ a) ∧
        ((euclidean_distance_search [1] [[1]] [dA] 1).map (fun r => r.simScore)).Pairwise
          (fun a b => b ≤ a) ∧
        ((hybrid_similarity_search [] [1] [[1]] [dA] 1).map (fun r => r.simScore)).Pairwise
          (fun a b => b ≤ a))) :=
  ⟨⟨by simp, rfl, le_refl 1⟩,
    claim_C1 [] [1] [[1]] [dA] 1 (7 / 10) (by simp) rfl (le_refl 1)⟩

/-! ### C3: tie-breaking order -/

theorem rankIdx_map_tie (xs : List ℝ) (k p q : ℕ) (hpq : p < q)
    (hq : q < (rankIdx xs k).length)
    (heq : ((rankIdx xs k).map (fun i => xs.getD i 0)).getD p 0 =
      ((rankIdx xs k).map (fun i => xs.getD i 0)).getD q 0) :
    (rankIdx xs k).getD q 0 < (rankIdx xs k).getD p 0 := by
  have hp : p < (rankIdx xs k).length := lt_trans hpq hq
  have hpm : p < ((rankIdx xs k).map (fun i => xs.getD i 0)).length := by
    rwa [List.length_map]
  have hqm : q < ((rankIdx xs k).map (fun i => xs.getD i 0)).length := by
    rwa [List.length_map]
  rw [List.getD_eq_getElem _ _ hpm, List.getD_eq_getElem _ _ hqm] at heq
  rw [List.getElem_map, List.getElem_map] at heq
  have hrel := List.pairwise_iff_getElem.mp (rankIdx_pairwise xs k) p q hp hq hpq
  rw [List.getD_eq_getElem _ _ hq, List.getD_eq_getElem _ _ hp]
  rcases hrel with hlt | ⟨he, hle⟩
  · exact absurd heq (ne_of_gt hlt)
  · have hne : (rankIdx xs k)[q] ≠ (rankIdx xs k)[p] := by
      intro hc
      have := ((rankIdx_nodup xs k).getElem_inj_iff).mp hc
      omega
    exact lt_of_le_of_ne hle hne

/-- C3 (corrected): within one ranked list of the cosine, Euclidean or
hybrid method, two results with equal `similarity_score` appear in
REVERSE corpus order — the later corpus document comes first — because
the source reverses a stable ascending `np.argsort`, which lists tied
indices in ascending order before the reversal.  (MMR's list is in
selection order, not score order, and its `np.argmax` ties go to the
earliest remaining index.) -/
theorem claim_C3 (query : List Char) (qe : List ℝ) (embeds : List (List ℝ))
    (docs : List Document) (k p q : ℕ) (hpq : p < q) :
    (q < (cosine_similarity_search qe embeds docs k).length →
      ((cosine_similarity_search qe embeds docs k).map (fun r => r.simScore)).getD p 0 =
        ((cosine_similarity_search qe embeds docs k).map (fun r => r.simScore)).getD q 0 →
      (rankIdx (cosineSimList qe embeds) k).getD q 0 <
        (rankIdx (cosineSimList qe embeds) k).getD p 0) ∧
    (q < (euclidean_distance_search qe embeds docs k).length →
      ((euclidean_distance_search qe embeds docs k).map (fun r => r.simScore)).getD p 0 =
        ((euclidean_distance_search qe embeds docs k).map (fun r => r.simScore)).getD q 0 →
      (rankIdx (euclidSimList qe embeds) k).getD q 0 <
        (rankIdx (euclidSimList qe embeds) k).getD p 0) ∧
    (q < (hybrid_similarity_search query qe embeds docs k).length →
      ((hybrid_similarity_search query qe embeds docs k).map
          (fun r => r.simScore)).getD p 0 =
        ((hybrid_similarity_search query qe embeds docs k).map
          (fun r => r.simScore)).getD q 0 →
      (rankIdx (hybridScores query qe embeds docs) k).getD q 0 <
        (rankIdx (hybridScores query qe embeds docs) k).getD p 0) := by
  refine ⟨?_, ?_, ?_⟩
  · intro hqc heqc
    unfold cosine_similarity_search at hqc heqc
    rw [buildResults_length] at hqc
    rw [buildResults_map_simScore] at heqc
    exact rankIdx_map_tie _ _ _ _ hpq hqc heqc
  · intro hqe heqe
    unfold euclidean_distance_search at hqe heqe
    rw [buildResults_length] at hqe
    rw [buildResults_map_simScore] at heqe
    exact rankIdx_map_tie _ _ _ _ hpq hqe heqe
  · intro hqh heqh
    rw [hybrid_map_simScore] at heqh
    unfold hybrid_similarity_search at hqh
    rw [List.length_map] at hqh
    exact rankIdx_map_tie _ _ _ _ hpq hqh heqh

/-! Concrete tie evaluation: query `[1, 0]` against the two embeddings
`[0, 1]` and `[0, -1]` gives equal scores under all three argsort-based
methods. -/

theorem cosineSim_dot_zero {qv dv : List ℝ} (h : dotL qv dv = 0) : cosineSim qv dv = 0 := by
  unfold cosineSim
  by_cases hd : norm2 qv * norm2 dv = 0
  · rw [if_pos hd]
  · rw [if_neg hd, h, zero_div]

theorem cosineSimList_tie : cosineSimList [1, 0] [[0, 1], [0, -1]] = [0, 0] := by
  unfold cosineSimList
  rw [List.map_cons, List.map_cons, List.map_nil]
  rw [cosineSim_dot_zero (by norm_num [dotL, List.zipWith_cons_cons]),
    cosineSim_dot_zero (by norm_num [dotL, List.zipWith_cons_cons])]

theorem rankIdx_pair_tie (c : ℝ) : rankIdx [c, c] 2 = [1, 0] := by
  have hkey : keyLe [c, c] 0 1 := Or.inr ⟨rfl, Nat.zero_le 1⟩
  unfold rankIdx argsortAsc
  rw [show ([c, c] : List ℝ).length = 2 from rfl]
  rw [show List.range 2 = [0, 1] from rfl]
  simp only [List.insertionSort, List.orderedInsert]
  rw [if_pos hkey]
  rfl

theorem cosine_tie_eval :
    cosine_similarity_search [1, 0] [[0, 1], [0, -1]] [dA, dB] 2 =
      [{ doc := dB, simScore := 0, method := "Cosine Similarity",
         cosScore := none, entScore := none },
       { doc := dA, simScore := 0, method := "Cosine Similarity",
         cosScore := none, entScore := none }] := by
  unfold cosine_similarity_search
  rw [cosineSimList_tie, rankIdx_pair_tie]
  rfl

theorem euclid_tie_sim :
    euclidSimList [1, 0] [[0, 1], [0, -1]] =
      [1 / (1 + Real.sqrt 2), 1 / (1 + Real.sqrt 2)] := by
  unfold euclidSimList euclidDist
  rw [List.map_cons, List.map_cons, List.map_nil]
  norm_num [List.zipWith_cons_cons, List.zipWith_nil_left]

theorem euclid_tie_map :
    (euclidean_distance_search [1, 0] [[0, 1], [0, -1]] [dA, dB] 2).map
        (fun r => r.simScore) =
      [1 / (1 + Real.sqrt 2), 1 / (1 + Real.sqrt 2)] := by
  unfold euclidean_distance_search
  rw [buildResults_map_simScore, euclid_tie_sim, rankIdx_pair_tie]
  rfl

theorem euclid_tie_len :
    (euclidean_distance_search [1, 0] [[0, 1], [0, -1]] [dA, dB] 2).length = 2 := by
  unfold euclidean_distance_search
  rw [buildResults_length, rankIdx_length, euclidSimList_length]
  rfl

theorem entity_scores_pair :
    calculate_entity_match_scores ("q".toList) [dA, dB] = [0, 0] := by
  unfold calculate_entity_match_scores
  simp [dA, dB, entityMatchScore, entityRawScore]

theorem hybrid_tie_scores :
    hybridScores ("q".toList) [1, 0] [[0, 1], [0, -1]] [dA, dB] = [0, 0] := by
  unfold hybridScores
  rw [cosineSimList_tie, entity_scores_pair]
  norm_num [List.zipWith_cons_cons, List.zipWith_nil_left]

theorem hybrid_tie_map :
    (hybrid_similarity_search ("q".toList) [1, 0] [[0, 1], [0, -1]] [dA, dB] 2).map
      (fun r => r.simScore) = [0, 0] := by
  rw [hybrid_map_simScore, hybrid_tie_scores, rankIdx_pair_tie]
  rfl

theorem hybrid_tie_len :
    (hybrid_similarity_search ("q".toList) [1, 0] [[0, 1], [0, -1]] [dA, dB] 2).length = 2 := by
  unfold hybrid_similarity_search
  rw [List.length_map, rankIdx_length, hybridScores_length]
  rfl

/-- C3 witness: the amended theorem applied at the two-document tie;
each per-method implication is discharged on its own, and corpus
positions 1 and 0 come out in that (reverse) order for all three
methods. -/
theorem claim_C3_witness :
    0 < 1 ∧
      ((rankIdx (cosineSimList [1, 0] [[0, 1], [0, -1]]) 2).getD 1 0 <
          (rankIdx (cosineSimList [1, 0] [[0, 1], [0, -1]]) 2).getD 0 0 ∧
        (rankIdx (euclidSimList [1, 0] [[0, 1], [0, -1]]) 2).getD 1 0 <
          (rankIdx (euclidSimList [1, 0] [[0, 1], [0, -1]]) 2).getD 0 0 ∧
        (rankIdx (hybridScores ("q".toList) [1, 0] [[0, 1], [0, -1]] [dA, dB]) 2).getD 1 0 <
          (rankIdx (hybridScores ("q".toList) [1, 0] [[0, 1], [0, -1]] [dA, dB]) 2).getD 0 0) := by
  have h := claim_C3 ("q".toList) [1, 0] [[0, 1], [0, -1]] [dA, dB] 2 0 1 Nat.zero_lt_one
  refine ⟨Nat.zero_lt_one, ?_, ?_, ?_⟩
  · exact h.1 (by rw [cosine_tie_eval]; norm_num) (by rw [cosine_tie_eval]; rfl)
  · exact h.2.1 (by rw [euclid_tie_len]; norm_num) (by rw [euclid_tie_map]; rfl)
  · exact h.2.2 (by rw [hybrid_tie_len]; norm_num) (by rw [hybrid_tie_map]; rfl)

/-- C3 counterexample: in the cosine ranking of the two-document tie, both
scores are `0`, yet document B (corpus position 1) is returned before
document A (corpus position 0) — ties are broken by reverse corpus order,
not corpus order. -/
theorem claim_C3_cex :
    (cosine_similarity_search [1, 0] [[0, 1], [0, -1]] [dA, dB] 2).map
        (fun r => r.doc.id) = ["B", "A"] ∧
      (cosine_similarity_search [1, 0] [[0, 1], [0, -1]] [dA, dB] 2).map
        (fun r => r.simScore) = [0, 0] := by
  rw [cosine_tie_eval]
  exact ⟨rfl, rfl⟩

/-! ### Concrete cosine values for the MMR counterexample corpus -/

theorem norm2_q1 : norm2 [1, 0, 0] = 1 := by
  unfold norm2
  rw [show dotL [1, 0, 0] [1, 0, 0] = 1 by norm_num [dotL, List.zipWith_cons_cons]]
  exact Real.sqrt_one

theorem norm2_e0 : norm2 [4, 3, 0] = 5 := by
  unfold norm2
  rw [show dotL [4, 3, 0] [4, 3, 0] = 25 by norm_num [dotL, List.zipWith_cons_cons]]
  rw [show (25 : ℝ) = 5 ^ 2 by norm_num]
  exact Real.sqrt_sq (by norm_num)

theorem norm2_e1 : norm2 [3, -4, 0] = 5 := by
  unfold norm2
  rw [show dotL [3, -4, 0] [3, -4, 0] = 25 by norm_num [dotL, List.zipWith_cons_cons]]
  rw [show (25 : ℝ) = 5 ^ 2 by norm_num]
  exact Real.sqrt_sq (by norm_num)

theorem cos_q_e0 : cosineSim [1, 0, 0] [4, 3, 0] = 4 / 5 := by
  unfold cosineSim
  rw [norm2_q1, norm2_e0, if_neg (by norm_num)]
  rw [show dotL [1, 0, 0] [4, 3, 0] = 4 by norm_num [dotL, List.zipWith_cons_cons]]
  norm_num

theorem cos_q_e1 : cosineSim [1, 0, 0] [3, -4, 0] = 3 / 5 := by
  unfold cosineSim
  rw [norm2_q1, norm2_e1, if_neg (by norm_num)]
  rw [show dotL [1, 0, 0] [3, -4, 0] = 3 by norm_num [dotL, List.zipWith_cons_cons]]
  norm_num

theorem cos_e1_e0 : cosineSim [3, -4, 0] [4, 3, 0] = 0 :=
  cosineSim_dot_zero (by norm_num [dotL, List.zipWith_cons_cons])

theorem cos_e2_e0 : cosineSim [4, 3, 0] [4, 3, 0] = 1 := by
  unfold cosineSim
  rw [norm2_e0, if_neg (by norm_num)]
  rw [show dotL [4, 3, 0] [4, 3, 0] = 25 by norm_num [dotL, List.zipWith_cons_cons]]
  norm_num

theorem cos_e2_e1 : cosineSim [4, 3, 0] [3, -4, 0] = 0 :=
  cosineSim_dot_zero (by norm_num [dotL, List.zipWith_cons_cons])

theorem simsC1_eval :
    cosineSimList [1, 0, 0] [[4, 3, 0], [3, -4, 0], [4, 3, 0]] = [4 / 5, 3 / 5, 4 / 5] := by
  unfold cosineSimList
  rw [List.map_cons, List.map_cons, List.map_cons, List.map_nil, cos_q_e0, cos_q_e1]

theorem argmax_simsC1 : argmaxIdx [(4 : ℝ) / 5, 3 / 5, 4 / 5] = some 0 := by
  simp only [argmaxIdx_cons, argmaxIdx_nil]
  norm_num

/-! ### MMR loop unfolding lemmas -/

theorem mmrLoop_zero (embeds : List (List ℝ)) (sims : List ℝ) (lam : ℝ)
    (sel rem : List ℕ) : mmrLoop embeds sims lam 0 sel rem = sel := rfl

theorem mmrLoop_succ (embeds : List (List ℝ)) (sims : List ℝ) (lam : ℝ)
    (fuel : ℕ) (sel rem : List ℕ) (p : ℕ)
    (hp : argmaxIdx (rem.map (mmrScoreOf embeds sims lam sel)) = some p) :
    mmrLoop embeds sims lam (fuel + 1) sel rem =
      mmrLoop embeds sims lam fuel (sel ++ [rem.getD p 0])
        (rem.erase (rem.getD p 0)) := by
  simp only [mmrLoop, hp]

/-- The two MMR rounds of the counterexample: with relevances
`[4/5, 3/5, 4/5]` and document 2 identical to document 0, the diverse
document 1 is selected before the redundant document 2. -/
theorem mmr_c1_loop :
    mmrLoop [[4, 3, 0], [3, -4, 0], [4, 3, 0]] [4 / 5, 3 / 5, 4 / 5] (7 / 10)
      2 [0] [1, 2] = [0, 1, 2] := by
  have hs1 : [1, 2].map (mmrScoreOf [[4, 3, 0], [3, -4, 0], [4, 3, 0]]
      [4 / 5, 3 / 5, 4 / 5] (7 / 10) [0]) = [21 / 50, 13 / 50] := by
    rw [List.map_cons, List.map_cons, List.map_nil]
    norm_num [mmrScoreOf, maxD, cos_e1_e0, cos_e2_e0]
  have ha1 : argmaxIdx [(21 : ℝ) / 50, 13 / 50] = some 0 := by
    simp only [argmaxIdx_cons, argmaxIdx_nil]
    norm_num
  have ha1' : argmaxIdx ([1, 2].map (mmrScoreOf [[4, 3, 0], [3, -4, 0], [4, 3, 0]]
      [4 / 5, 3 / 5, 4 / 5] (7 / 10) [0])) = some 0 := by
    rw [hs1]; exact ha1
  have hs2 : [2].map (mmrScoreOf [[4, 3, 0], [3, -4, 0], [4, 3, 0]]
      [4 / 5, 3 / 5, 4 / 5] (7 / 10) [0, 1]) = [13 / 50] := by
    rw [List.map_cons, List.map_nil]
    norm_num [mmrScoreOf, maxD, cos_e2_e0, cos_e2_e1]
  have ha2' : argmaxIdx ([2].map (mmrScoreOf [[4, 3, 0], [3, -4, 0], [4, 3, 0]]
      [4 / 5, 3 / 5, 4 / 5] (7 / 10) [0, 1])) = some 0 := by
    rw [hs2]
    simp only [argmaxIdx_cons, argmaxIdx_nil]
  show mmrLoop [[4, 3, 0], [3, -4, 0], [4, 3, 0]] [4 / 5, 3 / 5, 4 / 5] (7 / 10)
    (1 + 1) [0] [1, 2] = [0, 1, 2]
  rw [mmrLoop_succ _ _ _ _ _ _ _ ha1']
  show mmrLoop [[4, 3, 0], [3, -4, 0], [4, 3, 0]] [4 / 5, 3 / 5, 4 / 5] (7 / 10)
    (0 + 1) [0, 1] [2] = [0, 1, 2]
  rw [mmrLoop_succ _ _ _ _ _ _ _ ha2']
  rfl

theorem mmr_c1_eval :
    mmr_search [1, 0, 0] [[4, 3, 0], [3, -4, 0], [4, 3, 0]] [d0, d1, d2] 3 (7 / 10) =
      Except.ok
        [{ doc := d0, simScore := 4 / 5, method := "MMR", cosScore := none, entScore := none },
         { doc := d1, simScore := 3 / 5, method := "MMR", cosScore := none, entScore := none },
         { doc := d2, simScore := 4 / 5, method := "MMR", cosScore := none, entScore := none }] := by
  have hfirst : argmaxIdx (cosineSimList [1, 0, 0] [[4, 3, 0], [3, -4, 0], [4, 3, 0]]) =
      some 0 := by
    rw [simsC1_eval]; exact argmax_simsC1
  simp only [mmr_search]
  rw [simsC1_eval]
  rw [simsC1_eval] at hfirst
  simp only [hfirst]
  rw [show (List.range ([d0, d1, d2] : List Document).length).erase 0 = [1, 2] from rfl]
  rw [show min (3 - 1) ([1, 2] : List ℕ).length = 2 from rfl]
  rw [mmr_c1_loop]
  rfl

/-- C1 counterexample: on a 3-document corpus where documents 0 and 2 are
identical and document 1 is diverse, MMR (lambda = 0.7, topK = 3) returns
scores `[4/5, 3/5, 4/5]` — not sorted non-increasing, refuting the claim
for the MMR method. -/
theorem claim_C1_cex :
    (mmr_search [1, 0, 0] [[4, 3, 0], [3, -4, 0], [4, 3, 0]] [d0, d1, d2] 3 (7 / 10)).map
        (fun l => l.map (fun r => r.simScore)) =
      Except.ok [4 / 5, 3 / 5, 4 / 5] ∧
      ¬ (([(4 : ℝ) / 5, 3 / 5, 4 / 5] : List ℝ).Pairwise (fun a b => b ≤ a)) := by
  constructor
  · rw [mmr_c1_eval]; rfl
  · intro hc
    have h45 := (List.pairwise_cons.mp hc).2
    have h := (List.pairwise_cons.mp h45).1 (4 / 5) (by simp)
    norm_num at h

/-! ### C5: hybrid score decomposition -/

theorem getD_zipWith_hybrid (as bs : List ℝ) (i : ℕ)
    (h : i < (List.zipWith (fun c e => 0.6 * c + 0.4 * e) as bs).length) :
    (List.zipWith (fun c e => 0.6 * c + 0.4 * e) as bs).getD i 0 =
      0.6 * as.getD i 0 + 0.4 * bs.getD i 0 := by
  have hl : i < as.length := List.lt_length_left_of_zipWith h
  have hr : i < bs.length := List.lt_length_right_of_zipWith h
  rw [List.getD_eq_getElem _ _ h, List.getElem_zipWith,
    List.getD_eq_getElem _ _ hl, List.getD_eq_getElem _ _ hr]

/-- C5 (confirmed): every result of the hybrid method carries both
decomposed components (`cosine_score`, `entity_score`), and its
`similarity_score` is exactly `0.6` times the former plus `0.4` times the
latter. -/
theorem claim_C5 (query : List Char) (qe : List ℝ) (embeds : List (List ℝ))
    (docs : List Document) (k : ℕ) (halign : embeds.length = docs.length)
    (r : RankedResult) (hr : r ∈ hybrid_similarity_search query qe embeds docs k) :
    r.cosScore.isSome ∧ r.entScore.isSome ∧
      r.simScore = 0.6 * r.cosScore.getD 0 + 0.4 * r.entScore.getD 0 := by
  unfold hybrid_similarity_search at hr
  rcases List.mem_map.mp hr with ⟨i, hi, rfl⟩
  refine ⟨rfl, rfl, ?_⟩
  simp only [Option.getD_some]
  have hilt : i < (hybridScores query qe embeds docs).length := rankIdx_mem hi
  unfold hybridScores at hilt ⊢
  exact getD_zipWith_hybrid _ _ _ hilt

theorem cos_one : cosineSim [1] [1] = 1 := by
  have hn : norm2 [1] = 1 := by
    unfold norm2
    rw [show dotL [1] [1] = 1 by norm_num [dotL, List.zipWith_cons_cons]]
    exact Real.sqrt_one
  unfold cosineSim
  rw [hn, if_neg (by norm_num)]
  rw [show dotL [1] [1] = 1 by norm_num [dotL, List.zipWith_cons_cons]]
  norm_num

theorem cosList_single : cosineSimList [1] [[1]] = [1] := by
  unfold cosineSimList
  rw [List.map_cons, List.map_nil, cos_one]

theorem entity_scores_single : calculate_entity_match_scores [] [dA] = [0] := by
  unfold calculate_entity_match_scores
  simp [dA, entityMatchScore, entityRawScore]

theorem hybridScores_single : hybridScores [] [1] [[1]] [dA] = [3 / 5] := by
  unfold hybridScores
  rw [cosList_single, entity_scores_single]
  norm_num [List.zipWith_cons_cons, List.zipWith_nil_left]

theorem rankIdx_single (c : ℝ) : rankIdx [c] 1 = [0] := rfl

theorem hybrid_single_eval :
    hybrid_similarity_search [] [1] [[1]] [dA] 1 = [rHyb] := by
  unfold hybrid_similarity_search rHyb
  rw [hybridScores_single, rankIdx_single]
  simp only [List.map_cons, List.map_nil, cosList_single, entity_scores_single]
  norm_num

/-- C5 witness: the decomposition at the one-document corpus, where the
hybrid result has cosine component `1`, entity component `0`, and fused
score `3/5`. -/
theorem claim_C5_witness :
    (([[(1 : ℝ)]] : List (List ℝ)).length = ([dA] : List Document).length ∧
        rHyb ∈ hybrid_similarity_search [] [1] [[1]] [dA] 1) ∧
      (rHyb.cosScore.isSome ∧ rHyb.entScore.isSome ∧
        rHyb.simScore = 0.6 * rHyb.cosScore.getD 0 + 0.4 * rHyb.entScore.getD 0) := by
  have hmem : rHyb ∈ hybrid_similarity_search [] [1] [[1]] [dA] 1 := by
    rw [hybrid_single_eval]
    exact List.mem_singleton.mpr rfl
  exact ⟨⟨rfl, hmem⟩, claim_C5 [] [1] [[1]] [dA] 1 rfl rHyb hmem⟩

/-! ### C8: topK below 1 -/

theorem rankIdx_zero (xs : List ℝ) : rankIdx xs 0 = [] := by
  unfold rankIdx
  exact List.take_zero _

/-- C8 (amended): no topK validation exists in the source; with
`topK = 0` on a non-empty corpus no error is raised — the cosine,
Euclidean and hybrid methods return an empty list (the Python slice
`[:0]`), while MMR still returns exactly one result, because its first
selection happens before the `top_k`-bounded loop. -/
theorem claim_C8 (query : List Char) (qe : List ℝ) (embeds : List (List ℝ))
    (docs : List Document) (lam : ℝ)
    (hne : docs ≠ []) (halign : embeds.length = docs.length) :
    cosine_similarity_search qe embeds docs 0 = [] ∧
      euclidean_distance_search qe embeds docs 0 = [] ∧
      hybrid_similarity_search query qe embeds docs 0 = [] ∧
      (mmr_search qe embeds docs 0 lam).map List.length = Except.ok 1 := by
  have hnpos : 0 < docs.length := List.length_pos.mpr hne
  refine ⟨?_, ?_, ?_, ?_⟩
  · unfold cosine_similarity_search
    rw [rankIdx_zero]
    rfl
  · unfold euclidean_distance_search
    rw [rankIdx_zero]
    rfl
  · unfold hybrid_similarity_search
    rw [rankIdx_zero]
    rfl
  · have hsims : cosineSimList qe embeds ≠ [] := by
      apply List.length_pos.mp
      rw [cosineSimList_length, halign]
      exact hnpos
    rcases argmaxIdx_isSome hsims with ⟨first, hfirst⟩
    have hfl : first < docs.length := by
      have h1 := argmaxIdx_lt hfirst
      rwa [cosineSimList_length, halign] at h1
    have hmemfirst : first ∈ List.range docs.length := List.mem_range.mpr hfl
    have hrem0len : ((List.range docs.length).erase first).length = docs.length - 1 := by
      rw [List.length_erase_of_mem hmemfirst, List.length_range]
    simp only [mmr_search, hfirst]
    rw [Except.map]
    rw [buildResults_length]
    rw [mmrLoop_length _ _ _ _ _ _ (min_le_right _ _)]
    rw [hrem0len, List.length_cons, List.length_nil]
    congr 1
    omega

/-- C8 witness: the amended statement applied to a one-document corpus. -/
theorem claim_C8_witness :
    (([dA] : List Document) ≠ [] ∧ ([[(1 : ℝ)]] : List (List ℝ)).length =
        ([dA] : List Document).length) ∧
      (cosine_similarity_search [1] [[1]] [dA] 0 = [] ∧
        euclidean_distance_search [1] [[1]] [dA] 0 = [] ∧
        hybrid_similarity_search [] [1] [[1]] [dA] 0 = [] ∧
        (mmr_search [1] [[1]] [dA] 0 (7 / 10)).map List.length = Except.ok 1) :=
  ⟨⟨by simp, rfl⟩, claim_C8 [] [1] [[1]] [dA] (7 / 10) (by simp) rfl⟩

/-- C8 counterexample: `topK = 0 < 1` raises nothing — the cosine call
returns `[]` and the MMR call returns one result; there is no
`InvalidTopK` failure path in the source at all. -/
theorem claim_C8_cex :
    cosine_similarity_search [1] [[1]] [dA] 0 = [] ∧
      mmr_search [1] [[1]] [dA] 0 (7 / 10) =
        Except.ok [{ doc := dA, simScore := 1, method := "MMR",
                     cosScore := none, entScore := none }] := by
  constructor
  · unfold cosine_similarity_search
    rw [rankIdx_zero]
    rfl
  · simp only [mmr_search, cosList_single, argmaxIdx_cons, argmaxIdx_nil]
    rfl

/-! ### C6: MMR at lambda = 1 versus cosine ranking -/

theorem distinct_vals {sims : List ℝ} (hd : distinctSims sims) {i j : ℕ}
    (hi : i < sims.length) (hj : j < sims.length) (hne : i ≠ j) :
    sims.getD i 0 ≠ sims.getD j 0 := by
  rw [List.getD_eq_getElem _ _ hi, List.getD_eq_getElem _ _ hj]
  rcases Nat.lt_or_ge i j with h | h
  · exact List.pairwise_iff_getElem.mp hd i j hi hj h
  · have hji : j < i := lt_of_le_of_ne h (Ne.symm hne)
    exact (List.pairwise_iff_getElem.mp hd j i hj hi hji).symm

theorem sortDesc_perm (sims : List ℝ) (l : List ℕ) :
    List.Perm (sortDesc sims l) l :=
  List.perm_insertionSort _ _

theorem sortDesc_sorted (sims : List ℝ) (l : List ℕ) :
    (sortDesc sims l).Sorted (descLe sims) :=
  List.sorted_insertionSort _ _

theorem sorted_strict {sims : List ℝ} {l : List ℕ} (hd : distinctSims sims)
    (hnd : l.Nodup) (hmem : ∀ i ∈ l, i < sims.length)
    (hs : l.Pairwise (descLe sims)) : l.Pairwise (descLt sims) := by
  have hcomb := List.Pairwise.and hnd hs
  refine hcomb.imp_of_mem ?_
  intro a b ha hb hab
  rcases hab with ⟨hne, hle⟩
  exact lt_of_le_of_ne hle (distinct_vals hd (hmem b hb) (hmem a ha) hne.symm)

theorem sortDesc_sorted_strict {sims : List ℝ} {l : List ℕ} (hd : distinctSims sims)
    (hnd : l.Nodup) (hmem : ∀ i ∈ l, i < sims.length) :
    (sortDesc sims l).Pairwise (descLt sims) := by
  apply sorted_strict hd
  · exact ((sortDesc_perm sims l).nodup_iff).mpr hnd
  · intro i hi
    exact hmem i ((sortDesc_perm sims l).mem_iff.mp hi)
  · exact sortDesc_sorted sims l

theorem sortDesc_cons_max {sims : List ℝ} {l : List ℕ} {m : ℕ} (hd : distinctSims sims)
    (hnd : l.Nodup) (hmem : ∀ i ∈ l, i < sims.length) (hm : m ∈ l)
    (hmax : ∀ x ∈ l, x ≠ m → sims.getD x 0 < sims.getD m 0) :
    sortDesc sims l = m :: sortDesc sims (l.erase m) := by
  have hperm : List.Perm (sortDesc sims l) (m :: sortDesc sims (l.erase m)) :=
    ((sortDesc_perm sims l).trans (List.perm_cons_erase hm)).trans
      (List.Perm.cons m (sortDesc_perm sims (l.erase m)).symm)
  have hmemE : ∀ i ∈ l.erase m, i < sims.length :=
    fun i hi => hmem i (List.erase_subset _ _ hi)
  have hndE : (l.erase m).Nodup := hnd.erase m
  apply List.eq_of_perm_of_sorted (r := descLt sims) hperm
  · exact sortDesc_sorted_strict hd hnd hmem
  · rw [List.sorted_cons]
    constructor
    · intro b hb
      have hbE : b ∈ l.erase m := (sortDesc_perm sims (l.erase m)).mem_iff.mp hb
      have hbl := (hnd.mem_erase_iff).mp hbE
      exact hmax b hbl.2 hbl.1
    · exact sortDesc_sorted_strict hd hndE hmemE

theorem argmax_map_val {sims : List ℝ} {rem : List ℕ} {p : ℕ}
    (hp : argmaxIdx (rem.map (fun i => sims.getD i 0)) = some p) :
    p < rem.length ∧ rem.getD p 0 ∈ rem ∧
      ∀ x ∈ rem, sims.getD x 0 ≤ sims.getD (rem.getD p 0) 0 := by
  have hplt : p < rem.length := by
    have h1 := argmaxIdx_lt hp
    rwa [List.length_map] at h1
  have hmem : rem.getD p 0 ∈ rem := by
    rw [List.getD_eq_getElem _ _ hplt]
    exact List.getElem_mem _
  refine ⟨hplt, hmem, ?_⟩
  intro x hx
  have h2 := argmaxIdx_max hp (sims.getD x 0) (List.mem_map_of_mem _ hx)
  have hpm : p < (rem.map (fun i => sims.getD i 0)).length := by
    rwa [List.length_map]
  rwa [List.getD_eq_getElem _ _ hpm, List.getElem_map,
    ← List.getD_eq_getElem _ _ hplt] at h2

theorem mmrScoreOf_one (embeds : List (List ℝ)) (sims : List ℝ) (sel : List ℕ) (i : ℕ) :
    mmrScoreOf embeds sims 1 sel i = sims.getD i 0 := by
  unfold mmrScoreOf
  simp

theorem mmrLoop_one (embeds : List (List ℝ)) (sims : List ℝ) (hd : distinctSims sims) :
    ∀ (fuel : ℕ) (rem sel : List ℕ), rem.Nodup → (∀ i ∈ rem, i < sims.length) →
      mmrLoop embeds sims 1 fuel sel rem = sel ++ (sortDesc sims rem).take fuel := by
  intro fuel
  induction fuel with
  | zero => intro rem sel _ _; simp [mmrLoop]
  | succ n ih =>
    intro rem sel hnd hmem
    have hfun : mmrScoreOf embeds sims 1 sel = fun i => sims.getD i 0 :=
      funext (mmrScoreOf_one embeds sims sel)
    cases rem with
    | nil =>
      rw [show sortDesc sims [] = [] from rfl]
      simp only [mmrLoop, List.map_nil, argmaxIdx_nil]
      simp
    | cons r rs =>
      have hmap : (r :: rs).map (mmrScoreOf embeds sims 1 sel) ≠ [] := by simp
      rcases argmaxIdx_isSome hmap with ⟨p, hp⟩
      have hp' : argmaxIdx ((r :: rs).map (fun i => sims.getD i 0)) = some p := by
        rwa [hfun] at hp
      rcases argmax_map_val hp' with ⟨hplt, hmemM, hmax⟩
      have hmaxStrict : ∀ x ∈ (r :: rs), x ≠ (r :: rs).getD p 0 →
          sims.getD x 0 < sims.getD ((r :: rs).getD p 0) 0 :=
        fun x hx hxm => lt_of_le_of_ne (hmax x hx)
          (distinct_vals hd (hmem x hx) (hmem _ hmemM) hxm)
      rw [mmrLoop_succ _ _ _ _ _ _ _ hp]
      rw [sortDesc_cons_max hd hnd hmem hmemM hmaxStrict]
      rw [List.take_succ_cons]
      rw [ih ((r :: rs).erase ((r :: rs).getD p 0)) (sel ++ [(r :: rs).getD p 0])
        (hnd.erase _) (fun i hi => hmem i (List.erase_subset _ _ hi))]
      rw [List.append_assoc]
      rfl

theorem rankIdx_cons_first (sims : List ℝ) (k first : ℕ) (hk : 1 ≤ k)
    (hd : distinctSims sims) (hfirst : argmaxIdx sims = some first) :
    rankIdx sims k =
      first :: (sortDesc sims ((List.range sims.length).erase first)).take (k - 1) := by
  have hfl : first < sims.length := argmaxIdx_lt hfirst
  have hmaxv : ∀ j ∈ List.range sims.length, j ≠ first →
      sims.getD j 0 < sims.getD first 0 := by
    intro j hj hjf
    have hjlt : j < sims.length := List.mem_range.mp hj
    have hle : sims.getD j 0 ≤ sims.getD first 0 := by
      apply argmaxIdx_max hfirst
      rw [List.getD_eq_getElem _ _ hjlt]
      exact List.getElem_mem _
    exact lt_of_le_of_ne hle (distinct_vals hd hjlt hfl hjf)
  have hrev : (argsortAsc sims).reverse = sortDesc sims (List.range sims.length) := by
    apply List.eq_of_perm_of_sorted (r := descLt sims)
    · exact ((List.reverse_perm _).trans (argsortAsc_perm sims)).trans
        (sortDesc_perm sims _).symm
    · apply sorted_strict hd
      · exact List.nodup_reverse.mpr (argsortAsc_nodup sims)
      · intro i hi
        exact argsortAsc_mem (List.mem_reverse.mp hi)
      · have h1 : ((argsortAsc sims).reverse).Pairwise (fun i j => keyLe sims j i) :=
          List.pairwise_reverse.mpr (argsortAsc_sorted sims)
        exact h1.imp (fun h => keyLe_val_le h)
    · apply sortDesc_sorted_strict hd (List.nodup_range _)
      intro i hi
      exact List.mem_range.mp hi
  have hsplit : sortDesc sims (List.range sims.length) =
      first :: sortDesc sims ((List.range sims.length).erase first) :=
    sortDesc_cons_max hd (List.nodup_range _)
      (fun i hi => List.mem_range.mp hi) (List.mem_range.mpr hfl) hmaxv
  unfold rankIdx
  rw [hrev, hsplit]
  cases k with
  | zero => exact absurd hk (by omega)
  | succ k' =>
    rw [List.take_succ_cons]
    rw [Nat.add_sub_cancel]

theorem take_min_sat {α : Type} (l : List α) (a : ℕ) :
    l.take (min a l.length) = l.take a := by
  rcases Nat.le_total a l.length with h | h
  · rw [min_eq_left h]
  · rw [min_eq_right h, List.take_length, List.take_of_length_le h]

theorem mmr_one_idx (embeds : List (List ℝ)) (sims : List ℝ) (k first : ℕ)
    (hk : 1 ≤ k) (hd : distinctSims sims) (hfirst : argmaxIdx sims = some first) :
    mmrLoop embeds sims 1
        (min (k - 1) ((List.range sims.length).erase first).length)
        [first] ((List.range sims.length).erase first) = rankIdx sims k := by
  have hndE : ((List.range sims.length).erase first).Nodup :=
    (List.nodup_range _).erase _
  have hmemE : ∀ i ∈ (List.range sims.length).erase first, i < sims.length :=
    fun i hi => List.mem_range.mp (List.erase_subset _ _ hi)
  rw [mmrLoop_one embeds sims hd _ _ _ hndE hmemE]
  rw [rankIdx_cons_first sims k first hk hd hfirst]
  have hlenE : (sortDesc sims ((List.range sims.length).erase first)).length =
      ((List.range sims.length).erase first).length :=
    (sortDesc_perm _ _).length_eq
  rw [← hlenE, take_min_sat]
  rfl

theorem mmrLoop_append (embeds : List (List ℝ)) (sims : List ℝ) (lam : ℝ) :
    ∀ (fuel : ℕ) (sel rem : List ℕ),
      ∃ rest, mmrLoop embeds sims lam fuel sel rem = sel ++ rest := by
  intro fuel
  induction fuel with
  | zero => intro sel rem; exact ⟨[], by simp [mmrLoop]⟩
  | succ n ih =>
    intro sel rem
    cases hp : argmaxIdx (rem.map (mmrScoreOf embeds sims lam sel)) with
    | none => exact ⟨[], by simp [mmrLoop, hp]⟩
    | some p =>
      rcases ih (sel ++ [rem.getD p 0]) (rem.erase (rem.getD p 0)) with ⟨rest, hrest⟩
      refine ⟨[rem.getD p 0] ++ rest, ?_⟩
      rw [mmrLoop_succ _ _ _ _ _ _ _ hp, hrest, List.append_assoc]

theorem buildResults_map_pair (idxs : List ℕ) (docs : List Document) (sims : List ℝ)
    (m : String) :
    (buildResults idxs docs sims m).map (fun r => (r.doc, r.simScore)) =
      idxs.map (fun i => (docs.getD i dDoc, sims.getD i 0)) := by
  unfold buildResults
  rw [List.map_map]
  rfl

/-- C6 (amended): when the cosine similarities are pairwise distinct (no
ties) on a non-empty, index-aligned corpus with `topK ≥ 1`, MMR with
`lambda = 1.0` returns the same documents with the same
`similarity_score`s, in the same order, as the pure cosine ranking (only
the `method` tags differ), and for every `lambda` the first document MMR
selects is cosine's top-1.  With ties both parts fail, because cosine's
reversed argsort puts the LAST tied index first while `np.argmax` picks
the FIRST tied index — see the counterexample. -/
theorem claim_C6 (qe : List ℝ) (embeds : List (List ℝ)) (docs : List Document) (k : ℕ)
    (hne : docs ≠ []) (halign : embeds.length = docs.length) (hk : 1 ≤ k)
    (hd : distinctSims (cosineSimList qe embeds)) :
    ((mmr_search qe embeds docs k 1).map
        (fun l => l.map (fun r => (r.doc, r.simScore))) =
      Except.ok ((cosine_similarity_search qe embeds docs k).map
        (fun r => (r.doc, r.simScore)))) ∧
    ∀ lam : ℝ,
      (mmr_search qe embeds docs k lam).map
          (fun l => (l.map (fun r => (r.doc, r.simScore))).head?) =
        Except.ok (((cosine_similarity_search qe embeds docs k).map
          (fun r => (r.doc, r.simScore))).head?) := by
  have hsl : (cosineSimList qe embeds).length = docs.length := by
    rw [cosineSimList_length, halign]
  have hsims : cosineSimList qe embeds ≠ [] := by
    apply List.length_pos.mp
    rw [hsl]
    exact List.length_pos.mpr hne
  rcases argmaxIdx_isSome hsims with ⟨first, hfirst⟩
  constructor
  · simp only [mmr_search, hfirst]
    rw [← hsl]
    rw [mmr_one_idx embeds _ k first hk hd hfirst]
    rw [Except.map]
    congr 1
    unfold cosine_similarity_search
    rw [buildResults_map_pair, buildResults_map_pair]
  · intro lam
    simp only [mmr_search, hfirst]
    rw [← hsl]
    rcases mmrLoop_append embeds (cosineSimList qe embeds) lam
        (min (k - 1) ((List.range (cosineSimList qe embeds).length).erase first).length)
        [first] ((List.range (cosineSimList qe embeds).length).erase first) with
      ⟨rest, hrest⟩
    rw [hrest]
    rw [Except.map]
    congr 1
    unfold cosine_similarity_search
    rw [buildResults_map_pair, buildResults_map_pair]
    rw [rankIdx_cons_first _ k first hk hd hfirst]
    rfl

theorem simsC6_eval :
    cosineSimList [1, 0, 0] [[4, 3, 0], [3, -4, 0]] = [4 / 5, 3 / 5] := by
  unfold cosineSimList
  rw [List.map_cons, List.map_cons, List.map_nil, cos_q_e0, cos_q_e1]

/-- C6 witness: the amended statement at a two-document corpus with
distinct cosine scores `[4/5, 3/5]`. -/
theorem claim_C6_witness :
    (([d0, d1] : List Document) ≠ [] ∧
      ([[(4 : ℝ), 3, 0], [3, -4, 0]] : List (List ℝ)).length =
        ([d0, d1] : List Document).length ∧
      1 ≤ 2 ∧ distinctSims (cosineSimList [1, 0, 0] [[4, 3, 0], [3, -4, 0]])) ∧
    ((mmr_search [1, 0, 0] [[4, 3, 0], [3, -4, 0]] [d0, d1] 2 1).map
        (fun l => l.map (fun r => (r.doc, r.simScore))) =
      Except.ok ((cosine_similarity_search [1, 0, 0] [[4, 3, 0], [3, -4, 0]]
        [d0, d1] 2).map (fun r => (r.doc, r.simScore)))) ∧
    ((mmr_search [1, 0, 0] [[4, 3, 0], [3, -4, 0]] [d0, d1] 2 (7 / 10)).map
        (fun l => (l.map (fun r => (r.doc, r.simScore))).head?) =
      Except.ok (((cosine_similarity_search [1, 0, 0] [[4, 3, 0], [3, -4, 0]]
        [d0, d1] 2).map (fun r => (r.doc, r.simScore))).head?)) := by
  have hd : distinctSims (cosineSimList [1, 0, 0] [[4, 3, 0], [3, -4, 0]]) := by
    rw [simsC6_eval]
    unfold distinctSims
    norm_num [List.pairwise_cons]
  refine ⟨⟨by simp, rfl, by norm_num, hd⟩, ?_, ?_⟩
  · exact (claim_C6 [1, 0, 0] [[4, 3, 0], [3, -4, 0]] [d0, d1] 2
      (by simp) rfl (by norm_num) hd).1
  · exact (claim_C6 [1, 0, 0] [[4, 3, 0], [3, -4, 0]] [d0, d1] 2
      (by simp) rfl (by norm_num) hd).2 (7 / 10)

theorem argmax_tie : argmaxIdx [(0 : ℝ), 0] = some 0 := by
  simp only [argmaxIdx_cons, argmaxIdx_nil]
  norm_num

theorem mmr_c6_eval :
    mmr_search [1, 0] [[0, 1], [0, -1]] [dA, dB] 2 1 =
      Except.ok
        [{ doc := dA, simScore := 0, method := "MMR", cosScore := none, entScore := none },
         { doc := dB, simScore := 0, method := "MMR", cosScore := none, entScore := none }] := by
  simp only [mmr_search]
  rw [cosineSimList_tie]
  simp only [argmax_tie]
  rw [show (List.range ([dA, dB] : List Document).length).erase 0 = [1] from rfl]
  rw [show min (2 - 1) ([1] : List ℕ).length = 1 from rfl]
  have hstep := mmrLoop_succ [[0, 1], [0, -1]] [0, 0] 1 0 [0] [1] 0 rfl
  rw [show mmrLoop [[0, 1], [0, -1]] [0, 0] 1 1 [0] [1] =
    mmrLoop [[0, 1], [0, -1]] [0, 0] 1 (0 + 1) [0] [1] from rfl, hstep]
  rfl

/-- C6 counterexample: with tied cosine scores `[0, 0]`, MMR at
`lambda = 1` returns `[A, B]` (its `np.argmax` seed picks the first tied
index) while the cosine ranking returns `[B, A]` (the reversed argsort
puts the last tied index first): the two ranked lists differ, and MMR's
first selection is not cosine's top-1. -/
theorem claim_C6_cex :
    (mmr_search [1, 0] [[0, 1], [0, -1]] [dA, dB] 2 1).map
        (fun l => l.map (fun r => r.doc.id)) = Except.ok ["A", "B"] ∧
      (cosine_similarity_search [1, 0] [[0, 1], [0, -1]] [dA, dB] 2).map
        (fun r => r.doc.id) = ["B", "A"] := by
  constructor
  · rw [mmr_c6_eval]; rfl
  · rw [cosine_tie_eval]; rfl

/-! ### C4: empty corpus -/

/-- C4 (amended): on an empty document list the engine-level `search`
returns the empty mapping `{}` without calling any ranking method and
without raising; the four per-method result lists are simply absent.
(Called directly on an empty corpus, `mmr_search` itself raises — see the
counterexample.) -/
theorem claim_C4 (query : List Char) (qe : List ℝ)
    (embeds? : Option (List (List ℝ))) (k : ℕ) :
    engineSearch query qe [] embeds? k = Except.ok [] := by
  simp [engineSearch]

/-- C4 counterexample: `mmr_search` called directly on an empty corpus
raises numpy's `ValueError` from `np.argmax` on an empty sequence rather
than returning an empty list. -/
theorem claim_C4_cex :
    mmr_search [] [] [] 5 (7 / 10) =
      Except.error "attempt to get argmax of an empty sequence" := rfl

end LegalSearch
